import Mathlib

/-!
Shallow embedding of the overlayfs layer manager of ciel-rs
(src/overlayfs.rs): paths with Rust PathBuf join semantics, a
filesystem tree, the diff pass, and the commit, rollback and
construction operations, together with theorems settling the
specification claims about them.

Modelling conventions:
  - machine paths are component lists plus an absolute flag; `joinP`
    follows Rust PathBuf::join (an absolute argument replaces the base);
  - the filesystem is a finite tree; loops, hard links and symlink
    resolution during lookup are out of scope (the probed positions in
    every theorem hold non-symlink nodes);
  - fallible std::fs calls are Except values over an error type that
    distinguishes the error kinds the claims mention;
  - extended attribute values are modelled as UTF-8 strings (the byte
    level String::from_utf8 failure is not needed by any claim).
-/

inductive Err where
  | notFound
  | isADirectory
  | notADirectory
  | dirNotEmpty
  | alreadyExists
  | stripFailed
deriving Repr, DecidableEq

/-- A machine path: an absolute flag plus a list of components, as
produced by Rust Path::components (empty and CurDir components removed,
ParentDir kept as a literal ".." component). -/
structure RPath where
  absFlag : Bool
  comps : List String
deriving Repr, DecidableEq

/-- Split a character list at every slash (structural so that concrete
paths evaluate definitionally). -/
def splitSlash (cur : List Char) : List Char → List String
  | [] => [String.mk cur.reverse]
  | c :: tl =>
    if c == '/' then String.mk cur.reverse :: splitSlash [] tl
    else splitSlash (c :: cur) tl

/-- Whether the string starts with a slash. -/
def headIsSlash (s : String) : Bool :=
  match s.data with
  | c :: _ => c == '/'
  | [] => false

/-- Parse a string into a path the way Rust PathBuf::from does:
a leading slash makes it absolute; empty and "." components vanish. -/
def pathOfString (s : String) : RPath :=
  ⟨headIsSlash s, (splitSlash [] s.data).filter (fun c => c != "" && c != ".")⟩

/-- Append one component (walkdir descending into a directory entry). -/
def RPath.child (p : RPath) (n : String) : RPath :=
  ⟨p.absFlag, p.comps ++ [n]⟩

/-- Rust PathBuf::join and PathBuf::push: an absolute argument replaces
the whole base path. -/
def RPath.joinP (p q : RPath) : RPath :=
  if q.absFlag then q else ⟨p.absFlag, p.comps ++ q.comps⟩

/-- Rust PathBuf::pop: drop the last component. -/
def RPath.popP (p : RPath) : RPath :=
  ⟨p.absFlag, p.comps.dropLast⟩

/-- The component sequence including a marker for the root directory,
mirroring the RootDir component of Rust Path::components. -/
def RPath.fullComps (p : RPath) : List String :=
  (if p.absFlag then ["/"] else []) ++ p.comps

/-- Rust Path::strip_prefix: succeeds iff the components of the base are
a prefix of the components of the path; purely lexical, ".." is an
ordinary component. -/
def RPath.stripPre (p base : RPath) : Except Err RPath :=
  if base.fullComps.isPrefixOf p.fullComps then
    let rest := p.fullComps.drop base.fullComps.length
    match rest with
    | "/" :: tl => .ok ⟨true, tl⟩
    | _ => .ok ⟨false, rest⟩
  else .error .stripFailed

/-- The root path, Rust Path::new("/"). -/
def rootPath : RPath := ⟨true, []⟩

/-- A node of the filesystem tree. Directory children are kept in
traversal order; extended attributes are name-value pairs. -/
inductive FsTree where
  | file (mode : Nat) (data : List Nat)
  | symlink (target : String)
  | charDev (mode : Nat) (rdev : Nat)
  | dir (mode : Nat) (xattrs : List (String × String)) (children : List (String × FsTree))

/-- The mode bits carried by a node (symlinks report 0o777). -/
def FsTree.nodeMode : FsTree → Nat
  | .file m _ => m
  | .symlink _ => 0o777
  | .charDev m _ => m
  | .dir m _ _ => m

mutual

/-- Look a node up by component list; no symlink resolution. -/
def FsTree.lookup : FsTree → List String → Option FsTree
  | t, [] => some t
  | FsTree.dir _ _ cs, n :: rest => lookupChildren cs n rest
  | _, _ :: _ => none

def lookupChildren : List (String × FsTree) → String → List String → Option FsTree
  | [], _, _ => none
  | (k, c) :: tl, n, p => if k == n then FsTree.lookup c p else lookupChildren tl n p

end

/-- Replace the first child with the given name, or append a new one. -/
def replaceOrAppend : List (String × FsTree) → String → FsTree → List (String × FsTree)
  | [], n, node => [(n, node)]
  | (k, c) :: tl, n, node =>
    if k == n then (n, node) :: tl else (k, c) :: replaceOrAppend tl n node

/-- Set (some node) or delete (none) the child of the given name. -/
def updateChildren (cs : List (String × FsTree)) (n : String) (v : Option FsTree) :
    List (String × FsTree) :=
  match v with
  | none => cs.filter (fun kv => kv.1 != n)
  | some node => replaceOrAppend cs n node

mutual

/-- Write (some node) or delete (none) at a path; fails (none result)
when an intermediate directory is missing or a non-directory is on the
way. -/
def FsTree.setNode : FsTree → List String → Option FsTree → Option FsTree
  | _, [], v => v
  | FsTree.dir m x cs, [n], v => some (FsTree.dir m x (updateChildren cs n v))
  | FsTree.dir m x cs, n :: rest, v => (setChildren cs n rest v).map (FsTree.dir m x)
  | _, _ :: _, _ => none

def setChildren : List (String × FsTree) → String → List String → Option FsTree →
    Option (List (String × FsTree))
  | [], _, _, _ => none
  | (k, c) :: tl, n, p, v =>
    if k == n then (FsTree.setNode c p v).map (fun c2 => (k, c2) :: tl)
    else (setChildren tl n p v).map (fun cs2 => (k, c) :: cs2)

end

/-- fs::metadata and fs::symlink_metadata collapse to a node lookup in
this model (the probed positions never hold symlinks in the theorems). -/
def statNode (t : FsTree) (p : RPath) : Except Err FsTree :=
  match t.lookup p.comps with
  | some n => .ok n
  | none => .error .notFound

/-- Rust Path::is_dir on the modelled tree. -/
def isDirB (t : FsTree) (p : RPath) : Bool :=
  match t.lookup p.comps with
  | some (FsTree.dir _ _ _) => true
  | _ => false

/-- Move the already-fetched source node from src to dst. -/
def moveNode (t : FsTree) (src dst : RPath) (n : FsTree) : Except Err FsTree :=
  match t.setNode src.comps none with
  | none => .error .notFound
  | some t1 =>
    match t1.setNode dst.comps (some n) with
    | none => .error .notFound
    | some t2 => .ok t2

/-- fs::rename with rename(2) semantics: renaming a path onto itself
succeeds without change; an existing destination may only be replaced
by a node of compatible kind, and a destination directory must be
empty. -/
def renameF (t : FsTree) (src dst : RPath) : Except Err FsTree :=
  match t.lookup src.comps with
  | none => .error .notFound
  | some srcN =>
    if src = dst then .ok t
    else
      match t.lookup dst.comps with
      | some dstN =>
        match srcN, dstN with
        | FsTree.dir _ _ _, FsTree.dir _ _ [] => moveNode t src dst srcN
        | FsTree.dir _ _ _, FsTree.dir _ _ (_ :: _) => .error .dirNotEmpty
        | FsTree.dir _ _ _, _ => .error .notADirectory
        | _, FsTree.dir _ _ _ => .error .isADirectory
        | _, _ => moveNode t src dst srcN
      | none =>
        match t.lookup src.popP.comps, t.lookup dst.popP.comps with
        | _, some (FsTree.dir _ _ _) => moveNode t src dst srcN
        | _, _ => .error .notFound

/-- fs::remove_file: fails with NotFound on a missing path and with
IsADirectory on a directory. -/
def remove_file (t : FsTree) (p : RPath) : Except Err FsTree :=
  match t.lookup p.comps with
  | none => .error .notFound
  | some (FsTree.dir _ _ _) => .error .isADirectory
  | some _ =>
    match t.setNode p.comps none with
    | some t2 => .ok t2
    | none => .error .notFound

/-- fs::remove_dir_all: fails with NotFound on a missing path, removes
the whole subtree of a directory. -/
def remove_dir_all (t : FsTree) (p : RPath) : Except Err FsTree :=
  match t.lookup p.comps with
  | none => .error .notFound
  | some (FsTree.dir _ _ _) =>
    match t.setNode p.comps none with
    | some t2 => .ok t2
    | none => .error .notFound
  | some _ => .error .notADirectory

/-- fs::create_dir: the parent must exist as a directory and the target
must not exist; the new directory gets mode 0o755 (umask ignored). -/
def create_dir (t : FsTree) (p : RPath) : Except Err FsTree :=
  match t.lookup p.comps with
  | some _ => .error .alreadyExists
  | none =>
    match t.lookup p.popP.comps with
    | some (FsTree.dir _ _ _) =>
      match t.setNode p.comps (some (FsTree.dir 0o755 [] [])) with
      | some t2 => .ok t2
      | none => .error .notFound
    | _ => .error .notFound

/-- sync_permission from src/overlayfs.rs: reads both metadata values;
when the modes differ the Rust code calls set_mode on the Permissions
value returned by to_meta.permissions(), which is an in-memory copy that
is immediately dropped (and it writes the mode of the destination, not
the source) - so the filesystem itself is never modified. -/
def sync_permission (t : FsTree) (fromP toP : RPath) : Except Err FsTree :=
  match statNode t fromP with
  | .error e => .error e
  | .ok _fromMeta =>
    match statNode t toP with
    | .error e => .error e
    | .ok _toMeta => .ok t

/-- The change records produced by the diff pass (enum Diff in
src/overlayfs.rs). Symlink carries the absolute upper path; the other
variants carry paths relative to the upper root. -/
inductive Diff where
  | Symlink (p : RPath)
  | OverrideDir (p : RPath)
  | RenamedDir (fromP toP : RPath)
  | NewDir (p : RPath)
  | ModifiedDir (p : RPath)
  | WhiteoutFile (p : RPath)
  | File (p : RPath)
deriving Repr, DecidableEq

/-- The OverlayFS manager struct: the instance directory, the dist
(base) directory, and the lower, upper and work layer directories. -/
structure OverlayFS where
  inst : RPath
  base : RPath
  lower : RPath
  upper : RPath
  work : RPath
deriving Repr, DecidableEq

/-- OverlayFS::from_inst_dir: pure path computation, no validation and
no filesystem access (the function performs no fs calls in the source). -/
def from_inst_dir (dist_path inst_path inst_name : RPath) : Except Err OverlayFS :=
  let inst := inst_path.joinP inst_name
  .ok ⟨inst, dist_path,
    inst.joinP (pathOfString "layers/local"),
    inst.joinP (pathOfString "layers/diff"),
    inst.joinP (pathOfString "layers/diff.tmp")⟩

/-- xattr::get: the value of the named extended attribute, if present. -/
def xattrGet (xs : List (String × String)) (name : String) : Option String :=
  (xs.find? (fun kv => kv.1 == name)).map (fun kv => kv.2)

mutual

/-- Pre-order traversal of a subtree, as walkdir yields it: the node
itself first, then the children in order; symlinks are not followed. -/
def walkEntries : FsTree → RPath → List RPath
  | FsTree.dir _ _ cs, p => p :: walkChildren cs p
  | _, p => [p]

def walkChildren : List (String × FsTree) → RPath → List RPath
  | [], _ => []
  | (n, c) :: tl, p => walkEntries c (p.child n) ++ walkChildren tl p

end

/-- The item sequence of walkdir::WalkDir::new(upper): when the root
does not exist the iterator yields a single error item; otherwise it
yields the pre-order entries. -/
def walkItems (root : FsTree) (upperP : RPath) : List (Except Err RPath) :=
  match root.lookup upperP.comps with
  | none => [.error .notFound]
  | some t => (walkEntries t upperP).map .ok

/-- One iteration of the diff loop body: classify the entry at the
given absolute path, producing at most one change record. The branch
for an opaque attribute whose value is not "y" pushes nothing. -/
def classifyEntry (root : FsTree) (o : OverlayFS) (path : RPath) :
    Except Err (Option Diff) :=
  match path.stripPre o.upper with
  | .error e => .error e
  | .ok rel_path =>
    let lower_path := o.lower.joinP rel_path
    match root.lookup path.comps with
    | none => .error .notFound
    | some meta =>
      match meta with
      | FsTree.symlink _ => .ok (some (.Symlink path))
      | FsTree.dir _ xattrs _ =>
        match xattrGet xattrs "trusted.overlay.opaque" with
        | some text =>
          if text == "y" then .ok (some (.OverrideDir rel_path)) else .ok none
        | none =>
          match xattrGet xattrs "trusted.overlay.redirect" with
          | some fromS =>
            let fromRel := pathOfString fromS
            if fromRel.absFlag then
              match fromRel.stripPre rootPath with
              | .error e => .error e
              | .ok fr => .ok (some (.RenamedDir fr rel_path))
            else
              match ((path.popP).joinP fromRel).stripPre o.upper with
              | .error e => .error e
              | .ok fr => .ok (some (.RenamedDir fr rel_path))
          | none =>
            if isDirB root lower_path then .ok (some (.ModifiedDir rel_path))
            else .ok (some (.NewDir rel_path))
      | FsTree.charDev _ rdev =>
        if rdev == 0 then .ok (some (.WhiteoutFile rel_path))
        else .ok (some (.File rel_path))
      | FsTree.file _ _ => .ok (some (.File rel_path))

/-- The diff loop over the remaining walk items, accumulating records
in order and stopping at the first error. -/
def diffGo (root : FsTree) (o : OverlayFS) :
    List (Except Err RPath) → Except Err (List Diff)
  | [] => .ok []
  | e :: rest =>
    match e with
    | .error err => .error err
    | .ok p =>
      match classifyEntry root o p with
      | .error err => .error err
      | .ok c =>
        match diffGo root o rest with
        | .error err => .error err
        | .ok restMods => .ok (c.toList ++ restMods)

/-- OverlayFS::diff: walk the upper tree, skip the first item (the
upper root, or the single error item when upper is missing), and
classify each remaining entry. -/
def OverlayFS.diff (o : OverlayFS) (root : FsTree) : Except Err (List Diff) :=
  diffGo root o ((walkItems root o.upper).drop 1)

/-- Application of one change record inside OverlayFS::commit. -/
def applyDiff (o : OverlayFS) (t : FsTree) : Diff → Except Err FsTree
  | .Symlink path => renameF t path (o.lower.joinP path)
  | .OverrideDir p => renameF t (o.upper.joinP p) (o.lower.joinP p)
  | .RenamedDir f g => renameF t (o.lower.joinP f) (o.lower.joinP g)
  | .NewDir p => create_dir t (o.lower.joinP p)
  | .ModifiedDir p => sync_permission t (o.upper.joinP p) (o.lower.joinP p)
  | .WhiteoutFile p =>
    let lp := o.lower.joinP p
    if isDirB t lp then remove_dir_all t lp else remove_file t lp
  | .File p =>
    match renameF t (o.upper.joinP p) (o.lower.joinP p) with
    | .error e => .error e
    | .ok t1 => sync_permission t1 (o.upper.joinP p) (o.lower.joinP p)

/-- The record-application loop of OverlayFS::commit. -/
def commitGo (o : OverlayFS) (t : FsTree) : List Diff → Except Err FsTree
  | [] => .ok t
  | d :: rest =>
    match applyDiff o t d with
    | .error e => .error e
    | .ok t1 => commitGo o t1 rest

/-- OverlayFS::commit: run the diff pass, then apply each record in
emission order; the first failing record aborts. -/
def OverlayFS.commit (o : OverlayFS) (t : FsTree) : Except Err FsTree :=
  match o.diff t with
  | .error e => .error e
  | .ok mods => commitGo o t mods

/-- OverlayFS::rollback: remove the upper and work trees and recreate
them as empty directories. -/
def OverlayFS.rollback (o : OverlayFS) (t : FsTree) : Except Err FsTree :=
  match remove_dir_all t o.upper with
  | .error e => .error e
  | .ok t1 =>
    match remove_dir_all t1 o.work with
    | .error e => .error e
    | .ok t2 =>
      match create_dir t2 o.upper with
      | .error e => .error e
      | .ok t3 => create_dir t3 o.work

/-- Whole-system state: the filesystem tree plus the kernel mount
table as read from /proc/self/mountinfo. -/
structure SysState where
  fs : FsTree
  mounts : List (RPath × String)

/-- is_mounted from src/overlayfs.rs: true iff some mount table entry
has the given mount point and filesystem type. -/
def is_mounted (s : SysState) (mountpoint : RPath) (fs_type : String) : Bool :=
  s.mounts.any (fun m => m.1 == mountpoint && m.2 == fs_type)

/-- OverlayFS::is_mounted delegates with filesystem type "overlay". -/
def OverlayFS.is_mountedS (_o : OverlayFS) (s : SysState) (target : RPath) : Bool :=
  is_mounted s target "overlay"

/-- OverlayFS::commit at the system level: it performs only fs calls,
never consulting the mount table. -/
def OverlayFS.commitS (o : OverlayFS) (s : SysState) : Except Err SysState :=
  (o.commit s.fs).map (fun fs2 => ⟨fs2, s.mounts⟩)

/-- The mode bits of the node at a path, if any. -/
def modeAt (t : FsTree) (p : List String) : Option Nat :=
  (t.lookup p).map FsTree.nodeMode

lemma lookupChildren_filter_self (cs : List (String × FsTree)) (n : String) (p : List String) :
    lookupChildren (cs.filter (fun kv => kv.1 != n)) n p = none := by
  induction cs with
  | nil => simp [lookupChildren]
  | cons kv tl ih =>
    obtain ⟨k, c⟩ := kv
    by_cases h : k = n
    · simpa [h] using ih
    · simp [h, lookupChildren, ih]

lemma lookupChildren_filter_other (cs : List (String × FsTree)) (n m : String)
    (p : List String) (hmn : m ≠ n) :
    lookupChildren (cs.filter (fun kv => kv.1 != n)) m p = lookupChildren cs m p := by
  induction cs with
  | nil => simp
  | cons kv tl ih =>
    obtain ⟨k, c⟩ := kv
    by_cases h : k = n
    · subst h
      simp [lookupChildren, hmn, Ne.symm hmn, ih]
    · simp [h, lookupChildren, ih]

lemma lookupChildren_replaceOrAppend_self (cs : List (String × FsTree)) (n : String)
    (node : FsTree) :
    lookupChildren (replaceOrAppend cs n node) n [] = some node := by
  induction cs with
  | nil => simp [replaceOrAppend, lookupChildren, FsTree.lookup]
  | cons kv tl ih =>
    obtain ⟨k, c⟩ := kv
    by_cases h : k = n
    · simp [replaceOrAppend, h, lookupChildren, FsTree.lookup]
    · simp [replaceOrAppend, h, lookupChildren, ih]

lemma lookupChildren_replaceOrAppend_other (cs : List (String × FsTree)) (n m : String)
    (node : FsTree) (p : List String) (hmn : m ≠ n) :
    lookupChildren (replaceOrAppend cs n node) m p = lookupChildren cs m p := by
  induction cs with
  | nil => simp [replaceOrAppend, lookupChildren, Ne.symm hmn]
  | cons kv tl ih =>
    obtain ⟨k, c⟩ := kv
    by_cases h : k = n
    · subst h
      simp [replaceOrAppend, lookupChildren, hmn, Ne.symm hmn]
    · simp [replaceOrAppend, h, lookupChildren, ih]

lemma lookupChildren_update_self_none (cs : List (String × FsTree)) (n : String)
    (p : List String) :
    lookupChildren (updateChildren cs n none) n p = none := by
  simp [updateChildren, lookupChildren_filter_self]

lemma lookupChildren_update_self_some (cs : List (String × FsTree)) (n : String)
    (node : FsTree) :
    lookupChildren (updateChildren cs n (some node)) n [] = some node := by
  simp [updateChildren, lookupChildren_replaceOrAppend_self]

lemma lookupChildren_update_other (cs : List (String × FsTree)) (n m : String)
    (v : Option FsTree) (p : List String) (hmn : m ≠ n) :
    lookupChildren (updateChildren cs n v) m p = lookupChildren cs m p := by
  cases v with
  | none => simp [updateChildren, lookupChildren_filter_other _ _ _ _ hmn]
  | some node => simp [updateChildren, lookupChildren_replaceOrAppend_other _ _ _ _ _ hmn]

lemma setNode_lookup_self :
    ∀ (q : List String) (t : FsTree) (v : Option FsTree) (t2 : FsTree),
      FsTree.setNode t q v = some t2 → FsTree.lookup t2 q = v := by
  intro q
  induction q with
  | nil =>
    intro t v t2 h
    simp [FsTree.setNode] at h
    simp [h, FsTree.lookup]
  | cons n rest ih =>
    intro t v t2 h
    cases t with
    | dir m x cs =>
      cases rest with
      | nil =>
        simp [FsTree.setNode] at h
        subst h
        cases v with
        | none => simp [FsTree.lookup, lookupChildren_update_self_none]
        | some node => simp [FsTree.lookup, lookupChildren_update_self_some]
      | cons r rs =>
        simp [FsTree.setNode] at h
        obtain ⟨cs2, hsc, rfl⟩ := h
        show lookupChildren cs2 n (r :: rs) = v
        induction cs generalizing cs2 with
        | nil => simp [setChildren] at hsc
        | cons kv tl ihcs =>
          obtain ⟨k, c⟩ := kv
          by_cases hk : k = n
          · subst hk
            simp [setChildren] at hsc
            obtain ⟨c2, hset, rfl⟩ := hsc
            simp [lookupChildren]
            exact ih c v c2 hset
          · simp [setChildren, hk] at hsc
            obtain ⟨cs3, hsc3, rfl⟩ := hsc
            simp [lookupChildren, hk]
            exact ihcs cs3 hsc3
    | file m d => simp [FsTree.setNode] at h
    | symlink tg => simp [FsTree.setNode] at h
    | charDev m r => simp [FsTree.setNode] at h

lemma setNode_lookup_frame :
    ∀ (q : List String) (t : FsTree) (v : Option FsTree) (t2 : FsTree) (p : List String),
      FsTree.setNode t q v = some t2 → ¬ (q <+: p) → ¬ (p <+: q) →
      FsTree.lookup t2 p = FsTree.lookup t p := by
  intro q
  induction q with
  | nil =>
    intro t v t2 p h hq1 hq2
    exact absurd List.nil_prefix hq1
  | cons n rest ih =>
    intro t v t2 p h hq1 hq2
    cases t with
    | dir m x cs =>
      cases rest with
      | nil =>
        simp [FsTree.setNode] at h
        subst h
        cases p with
        | nil => exact absurd List.nil_prefix hq2
        | cons m1 p1 =>
          by_cases hm : m1 = n
          · subst hm
            simp [List.cons_prefix_cons, List.nil_prefix] at hq1
          · show lookupChildren (updateChildren cs n v) m1 p1 = lookupChildren cs m1 p1
            exact lookupChildren_update_other _ _ _ _ _ hm
      | cons r rs =>
        simp [FsTree.setNode] at h
        obtain ⟨cs2, hsc, rfl⟩ := h
        cases p with
        | nil => exact absurd List.nil_prefix hq2
        | cons m1 p1 =>
          show lookupChildren cs2 m1 p1 = lookupChildren cs m1 p1
          by_cases hm : m1 = n
          · subst hm
            simp [List.cons_prefix_cons] at hq1 hq2
            induction cs generalizing cs2 with
            | nil => simp [setChildren] at hsc
            | cons kv tl ihcs =>
              obtain ⟨k, c⟩ := kv
              by_cases hk : k = m1
              · subst hk
                simp [setChildren] at hsc
                obtain ⟨c2, hset, rfl⟩ := hsc
                simp [lookupChildren]
                exact ih c v c2 p1 hset hq1 hq2
              · simp [setChildren, hk] at hsc
                obtain ⟨cs3, hsc3, rfl⟩ := hsc
                simp [lookupChildren, hk]
                exact ihcs cs3 hsc3
          · induction cs generalizing cs2 with
            | nil => simp [setChildren] at hsc
            | cons kv tl ihcs =>
              obtain ⟨k, c⟩ := kv
              by_cases hk : k = n
              · subst hk
                simp [setChildren] at hsc
                obtain ⟨c2, hset, rfl⟩ := hsc
                simp [lookupChildren, hm, Ne.symm hm]
              · simp [setChildren, hk] at hsc
                obtain ⟨cs3, hsc3, rfl⟩ := hsc
                by_cases hk1 : k = m1
                · subst hk1
                  simp [lookupChildren]
                · simp [lookupChildren, hk1]
                  exact ihcs cs3 hsc3
    | file m d => simp [FsTree.setNode] at h
    | symlink tg => simp [FsTree.setNode] at h
    | charDev m r => simp [FsTree.setNode] at h

lemma remove_dir_all_ok_set (t : FsTree) (p : RPath) (t2 : FsTree)
    (h : remove_dir_all t p = .ok t2) :
    FsTree.setNode t p.comps none = some t2 := by
  unfold remove_dir_all at h
  split at h
  · exact absurd h (by simp)
  · split at h
    · rename_i t3 heq
      simp only [Except.ok.injEq] at h
      subst h
      exact heq
    · exact absurd h (by simp)
  · exact absurd h (by simp)

lemma create_dir_ok_set (t : FsTree) (p : RPath) (t2 : FsTree)
    (h : create_dir t p = .ok t2) :
    FsTree.setNode t p.comps (some (FsTree.dir 0o755 [] [])) = some t2 := by
  unfold create_dir at h
  split at h
  · exact absurd h (by simp)
  · split at h
    · split at h
      · rename_i t3 heq
        simp only [Except.ok.injEq] at h
        subst h
        exact heq
      · exact absurd h (by simp)
    · exact absurd h (by simp)

/-- Classification of one walk item collapsed to an Option; the error
cases cannot occur in a successful diff and count as no record. -/
def classifyOptE (root : FsTree) (o : OverlayFS) (e : Except Err RPath) : Option Diff :=
  match e with
  | .error _ => none
  | .ok p =>
    match classifyEntry root o p with
    | .ok c => c
    | .error _ => none

lemma diffGo_ok_eq (root : FsTree) (o : OverlayFS) :
    ∀ (es : List (Except Err RPath)) (mods : List Diff),
      diffGo root o es = .ok mods → mods = es.filterMap (classifyOptE root o) := by
  intro es
  induction es with
  | nil =>
    intro mods h
    simp [diffGo] at h
    simp [h.symm]
  | cons e rest ih =>
    intro mods h
    cases e with
    | error err => simp [diffGo] at h
    | ok p =>
      simp only [diffGo] at h
      cases hc : classifyEntry root o p with
      | error err => rw [hc] at h; simp at h
      | ok c =>
        rw [hc] at h
        cases hr : diffGo root o rest with
        | error err => rw [hr] at h; simp at h
        | ok restMods =>
          rw [hr] at h
          simp only [Except.ok.injEq] at h
          subst h
          rw [List.filterMap_cons]
          simp only [classifyOptE, hc]
          cases c with
          | none => simpa using ih restMods hr
          | some d => simpa using ih restMods hr

lemma diffGo_ok_classify (root : FsTree) (o : OverlayFS) :
    ∀ (es : List (Except Err RPath)) (mods : List Diff) (p : RPath),
      diffGo root o es = .ok mods → Except.ok p ∈ es →
      ∃ c, classifyEntry root o p = .ok c := by
  intro es
  induction es with
  | nil =>
    intro mods p h hmem
    simp at hmem
  | cons e rest ih =>
    intro mods p h hmem
    cases e with
    | error err => simp [diffGo] at h
    | ok q =>
      simp only [diffGo] at h
      cases hc : classifyEntry root o q with
      | error err => rw [hc] at h; simp at h
      | ok c =>
        rw [hc] at h
        cases hr : diffGo root o rest with
        | error err => rw [hr] at h; simp at h
        | ok restMods =>
          rcases List.mem_cons.mp hmem with hpq | hmem2
          · have : q = p := by injection hpq.symm
            exact ⟨c, this ▸ hc⟩
          · exact ih restMods p hr hmem2

/-- The concrete manager used by the concrete evaluations: instance
directory /i, dist directory /d (exactly what from_inst_dir builds for
dist_path = /d, inst_path = /, inst_name = i). -/
def oX : OverlayFS :=
  ⟨pathOfString "/i", pathOfString "/d",
   pathOfString "/i/layers/local",
   pathOfString "/i/layers/diff",
   pathOfString "/i/layers/diff.tmp"⟩

/-- A root tree holding the /i instance with the given upper (diff) and
lower (local) children, an empty work directory, and the /d dist tree. -/
def mkRoot (diffChildren localChildren : List (String × FsTree)) : FsTree :=
  FsTree.dir 0o755 [] [
    ("i", FsTree.dir 0o755 [] [
      ("layers", FsTree.dir 0o755 [] [
        ("local", FsTree.dir 0o755 [] localChildren),
        ("diff", FsTree.dir 0o755 [] diffChildren),
        ("diff.tmp", FsTree.dir 0o755 [] [])])]),
    ("d", FsTree.dir 0o755 [] [])]

/-- C1 scenario a: upper/etc is a directory with mode 0o700, lower/etc
one with mode 0o755; the diff classifies etc as ModifiedDir. -/
def c1fs : FsTree :=
  mkRoot [("etc", FsTree.dir 0o700 [] [])] [("etc", FsTree.dir 0o755 [] [])]

/-- C1 scenario b: upper/etc/h is a regular file, so the diff emits a
File record for etc/h after the ModifiedDir record for etc. -/
def c1fsB : FsTree :=
  mkRoot [("etc", FsTree.dir 0o755 [] [("h", FsTree.file 0o644 [104])])]
         [("etc", FsTree.dir 0o755 [] [])]

/-- C1: the permission-sync step never copies the mode bits of upper/R
onto lower/R. For a ModifiedDir record, commit succeeds but leaves the
whole tree unchanged (sync_permission mutates only a dropped in-memory
Permissions copy, and even that copy receives the mode of the
destination): lower/etc keeps mode 0o755 although upper/etc has 0o700.
For a File record, sync_permission is called after the rename has
already moved the source away, so fs::metadata on the source fails and
commit aborts with NotFound instead of syncing anything. -/
theorem c1_sync_permission_never_copies_mode :
    OverlayFS.commit oX c1fs = Except.ok c1fs ∧
    modeAt c1fs ["i", "layers", "diff", "etc"] = some 0o700 ∧
    modeAt c1fs ["i", "layers", "local", "etc"] = some 0o755 ∧
    OverlayFS.commit oX c1fsB = Except.error Err.notFound := by
  refine ⟨rfl, rfl, rfl, rfl⟩

/-- C2 scenario: the upper layer holds a single symlink a. -/
def c2fs : FsTree := mkRoot [("a", FsTree.symlink "/x")] []

/-- C2: a Symlink record never moves the symlink into the lower tree.
The record carries the absolute upper path P and commit computes
lower.join(P); since P is absolute, Rust Path::join discards the lower
base and yields P itself, so fs::rename(P, P) is a no-op. After commit
the symlink still exists at upper/a and lower/a does not exist. -/
theorem c2_symlink_record_is_noop :
    OverlayFS.diff oX c2fs =
      Except.ok [Diff.Symlink ⟨true, ["i", "layers", "diff", "a"]⟩] ∧
    (pathOfString "/i/layers/local").joinP ⟨true, ["i", "layers", "diff", "a"]⟩ =
      ⟨true, ["i", "layers", "diff", "a"]⟩ ∧
    OverlayFS.commit oX c2fs = Except.ok c2fs ∧
    FsTree.lookup c2fs ["i", "layers", "diff", "a"] = some (FsTree.symlink "/x") ∧
    FsTree.lookup c2fs ["i", "layers", "local", "a"] = none := by
  refine ⟨rfl, rfl, rfl, rfl, rfl⟩

/-- Whether the node at the given absolute path is a directory whose
trusted.overlay.opaque attribute is present with a value other than
"y" - the one shape of upper entry for which the diff loop body pushes
no record at all. -/
def opaqueNonY (root : FsTree) (p : RPath) : Bool :=
  match FsTree.lookup root p.comps with
  | some (FsTree.dir _ xattrs _) =>
    match xattrGet xattrs "trusted.overlay.opaque" with
    | some v => v != "y"
    | none => false
  | _ => false

lemma classify_ok_none_iff (root : FsTree) (o : OverlayFS) (p : RPath) (c : Option Diff)
    (h : classifyEntry root o p = .ok c) :
    (c = none ↔ opaqueNonY root p = true) := by
  cases hstrip : RPath.stripPre p o.upper with
  | error e =>
    have hs : classifyEntry root o p = .error e := by simp [classifyEntry, hstrip]
    rw [hs] at h
    exact absurd h (by simp)
  | ok rel =>
    cases hlook : FsTree.lookup root p.comps with
    | none =>
      have hs : classifyEntry root o p = .error .notFound := by
        simp [classifyEntry, hstrip, hlook]
      rw [hs] at h
      exact absurd h (by simp)
    | some meta =>
      cases meta with
      | symlink tg =>
        have hs : classifyEntry root o p = .ok (some (.Symlink p)) := by
          simp [classifyEntry, hstrip, hlook]
        rw [hs] at h
        simp only [Except.ok.injEq] at h
        simp [h.symm, opaqueNonY, hlook]
      | file m d =>
        have hs : classifyEntry root o p = .ok (some (.File rel)) := by
          simp [classifyEntry, hstrip, hlook]
        rw [hs] at h
        simp only [Except.ok.injEq] at h
        simp [h.symm, opaqueNonY, hlook]
      | charDev m r =>
        by_cases hr : (r == 0) = true
        · have hs : classifyEntry root o p = .ok (some (.WhiteoutFile rel)) := by
            simp [classifyEntry, hstrip, hlook, hr]
          rw [hs] at h
          simp only [Except.ok.injEq] at h
          simp [h.symm, opaqueNonY, hlook]
        · have hs : classifyEntry root o p = .ok (some (.File rel)) := by
            simp [classifyEntry, hstrip, hlook, hr]
          rw [hs] at h
          simp only [Except.ok.injEq] at h
          simp [h.symm, opaqueNonY, hlook]
      | dir m xattrs cs =>
        cases hop : xattrGet xattrs "trusted.overlay.opaque" with
        | some text =>
          by_cases hy : (text == "y") = true
          · have hs : classifyEntry root o p = .ok (some (.OverrideDir rel)) := by
              simp [classifyEntry, hstrip, hlook, hop, hy]
            rw [hs] at h
            simp only [Except.ok.injEq] at h
            simp [h.symm, opaqueNonY, hlook, hop, bne, hy]
          · have hs : classifyEntry root o p = .ok none := by
              simp [classifyEntry, hstrip, hlook, hop, hy]
            rw [hs] at h
            simp only [Except.ok.injEq] at h
            simp only [h.symm, opaqueNonY, hlook, hop, bne]
            simpa using hy
        | none =>
          cases hred : xattrGet xattrs "trusted.overlay.redirect" with
          | some fromS =>
            by_cases habs : (pathOfString fromS).absFlag = true
            · cases hs2 : RPath.stripPre (pathOfString fromS) rootPath with
              | error e =>
                have hs : classifyEntry root o p = .error e := by
                  simp [classifyEntry, hstrip, hlook, hop, hred, habs, hs2]
                rw [hs] at h
                exact absurd h (by simp)
              | ok fr =>
                have hs : classifyEntry root o p = .ok (some (.RenamedDir fr rel)) := by
                  simp [classifyEntry, hstrip, hlook, hop, hred, habs, hs2]
                rw [hs] at h
                simp only [Except.ok.injEq] at h
                simp [h.symm, opaqueNonY, hlook, hop, hred]
            · cases hs2 : RPath.stripPre ((p.popP).joinP (pathOfString fromS)) o.upper with
              | error e =>
                have hs : classifyEntry root o p = .error e := by
                  simp [classifyEntry, hstrip, hlook, hop, hred, habs, hs2]
                rw [hs] at h
                exact absurd h (by simp)
              | ok fr =>
                have hs : classifyEntry root o p = .ok (some (.RenamedDir fr rel)) := by
                  simp [classifyEntry, hstrip, hlook, hop, hred, habs, hs2]
                rw [hs] at h
                simp only [Except.ok.injEq] at h
                simp [h.symm, opaqueNonY, hlook, hop, hred]
          | none =>
            by_cases hd : isDirB root (o.lower.joinP rel) = true
            · have hs : classifyEntry root o p = .ok (some (.ModifiedDir rel)) := by
                simp [classifyEntry, hstrip, hlook, hop, hred, hd]
              rw [hs] at h
              simp only [Except.ok.injEq] at h
              simp [h.symm, opaqueNonY, hlook, hop, hred]
            · have hs : classifyEntry root o p = .ok (some (.NewDir rel)) := by
                simp [classifyEntry, hstrip, hlook, hop, hred, hd]
              rw [hs] at h
              simp only [Except.ok.injEq] at h
              simp [h.symm, opaqueNonY, hlook, hop, hred]

/-- C3 counterexample scenario: upper/dd is a directory carrying the
opaque attribute with value "n". -/
def c3fs : FsTree :=
  mkRoot [("dd", FsTree.dir 0o755 [("trusted.overlay.opaque", "n")] [])] []

/-- C3 counterexample: dd is present in the upper layer (the walk after
the root skip consists exactly of it), yet the diff emits no record for
it - an opaque attribute whose value is not "y" makes the loop body
push nothing, refuting "exactly one record for every upper path,
whatever the opaque value". -/
theorem c3_counterexample_opaque_non_y :
    (walkItems c3fs oX.upper).drop 1 = [Except.ok (oX.upper.child "dd")] ∧
    OverlayFS.diff oX c3fs = Except.ok [] := ⟨rfl, rfl⟩

/-- C3 amended: when the diff succeeds, the emitted records are exactly
the per-entry classifications of the walked upper paths in order - at
most one record per path - and an entry contributes no record if and
only if it is a directory whose opaque attribute is present with a
value other than "y" (value "y" still yields exactly one OverrideDir
record). -/
theorem c3_one_record_per_path_except_opaque_non_y
    (root : FsTree) (o : OverlayFS) (mods : List Diff)
    (h : OverlayFS.diff o root = .ok mods) :
    mods = ((walkItems root o.upper).drop 1).filterMap (classifyOptE root o) ∧
    ∀ p, Except.ok p ∈ (walkItems root o.upper).drop 1 →
      (classifyOptE root o (Except.ok p) = none ↔ opaqueNonY root p = true) := by
  constructor
  · exact diffGo_ok_eq root o _ mods h
  · intro p hmem
    obtain ⟨c, hc⟩ := diffGo_ok_classify root o _ mods p h hmem
    have hiff := classify_ok_none_iff root o p c hc
    simpa [classifyOptE, hc] using hiff

/-- C3 witness scenario: the same layout with opaque value "y". -/
def c3fsY : FsTree :=
  mkRoot [("dd", FsTree.dir 0o755 [("trusted.overlay.opaque", "y")] [])] []

/-- C3 witness: the record correspondence instantiated at the concrete
opaque-value-y tree, whose diff emits exactly one OverrideDir record. -/
theorem c3_one_record_witness :
    OverlayFS.diff oX c3fsY = Except.ok [Diff.OverrideDir ⟨false, ["dd"]⟩] ∧
    [Diff.OverrideDir ⟨false, ["dd"]⟩] =
      ((walkItems c3fsY oX.upper).drop 1).filterMap (classifyOptE c3fsY oX) :=
  ⟨rfl, (c3_one_record_per_path_except_opaque_non_y c3fsY oX _ rfl).1⟩

/-- C6 scenario: upper/dd carries a redirect attribute whose relative
value climbs out of the upper tree with ".." components. -/
def c6fs : FsTree :=
  mkRoot [("dd", FsTree.dir 0o755 [("trusted.overlay.redirect", "../../x")] [])] []

/-- C6: the diff pass never resolves ".." components of a relative
redirect value and never rejects an escaping source: for the value
"../../x" it happily emits RenamedDir("../../x", "dd"), because Rust
push and strip_prefix are purely lexical (upper/dd/../../x still has
the upper prefix as a component prefix). At commit time the record
would address lower/../../x, outside the instance tree. -/
theorem c6_redirect_escape_not_rejected :
    OverlayFS.diff oX c6fs =
      Except.ok [Diff.RenamedDir ⟨false, ["..", "..", "x"]⟩ ⟨false, ["dd"]⟩] ∧
    pathOfString "../../x" = ⟨false, ["..", "..", "x"]⟩ ∧
    ((oX.upper.child "dd").popP.joinP (pathOfString "../../x")).comps =
      ["i", "layers", "diff", "..", "..", "x"] := ⟨rfl, rfl, rfl⟩

/-- C7 counterexample: from_inst_dir succeeds both for a name holding a
path separator and for the empty name - there is no InvalidName check
anywhere in the constructor. -/
theorem c7_counterexample_no_invalid_name_check :
    (from_inst_dir (pathOfString "/d") (pathOfString "/inst") (pathOfString "a/b")).isOk
      = true ∧
    (from_inst_dir (pathOfString "/d") (pathOfString "/inst") (pathOfString "")).isOk
      = true := ⟨rfl, rfl⟩

/-- C7 amended: construction always succeeds, performing no name
validation at all; it only computes the five instance paths (and, since
it is a pure path computation with no fs call in its body, it does not
touch the filesystem). -/
theorem c7_from_inst_dir_always_succeeds
    (dist_path inst_path inst_name : RPath) :
    from_inst_dir dist_path inst_path inst_name =
      Except.ok
        ⟨inst_path.joinP inst_name, dist_path,
         (inst_path.joinP inst_name).joinP ⟨false, ["layers", "local"]⟩,
         (inst_path.joinP inst_name).joinP ⟨false, ["layers", "diff"]⟩,
         (inst_path.joinP inst_name).joinP ⟨false, ["layers", "diff.tmp"]⟩⟩ := rfl

/-- C4 scenario: upper holds a whiteout for f, lower holds f, and the
mount table says an overlay is mounted at /mnt. -/
def c4fs : FsTree :=
  mkRoot [("f", FsTree.charDev 0o600 0)] [("f", FsTree.file 0o644 [1])]

/-- The mount table entry of the C4 scenario. -/
def c4mounts : List (RPath × String) := [(⟨true, ["mnt"]⟩, "overlay")]

/-- C4 counterexample: with the mount point mounted, commit does not
fail with AlreadyMounted - commit performs no mount check at all - and
the filesystem does change: the whiteout record is applied, deleting
lower/f. -/
theorem c4_counterexample_commit_while_mounted :
    OverlayFS.is_mountedS oX ⟨c4fs, c4mounts⟩ ⟨true, ["mnt"]⟩ = true ∧
    OverlayFS.commitS oX ⟨c4fs, c4mounts⟩ =
      Except.ok ⟨mkRoot [("f", FsTree.charDev 0o600 0)] [], c4mounts⟩ ∧
    FsTree.lookup c4fs ["i", "layers", "local", "f"] = some (FsTree.file 0o644 [1]) ∧
    FsTree.lookup (mkRoot [("f", FsTree.charDev 0o600 0)] [])
      ["i", "layers", "local", "f"] = none := ⟨rfl, rfl, rfl, rfl⟩

/-- C4 amended: commit never consults the mount table: even while the
mount point is mounted, its outcome is determined by the filesystem
tree alone - identical to a run under any other mount table - and the
mount table itself is passed through unchanged. -/
theorem c4_commit_ignores_mount_state
    (fs : FsTree) (m m2 : List (RPath × String)) (o : OverlayFS) (tgt : RPath)
    (_hm : OverlayFS.is_mountedS o ⟨fs, m⟩ tgt = true) :
    OverlayFS.commitS o ⟨fs, m⟩ =
      Except.map (fun s => ⟨s.fs, m⟩) (OverlayFS.commitS o ⟨fs, m2⟩) := by
  unfold OverlayFS.commitS
  cases o.commit fs <;> simp [Except.map]

/-- C4 witness: the mount-state independence instantiated at the
mounted whiteout scenario against the empty mount table. -/
theorem c4_commit_ignores_mount_witness :
    OverlayFS.commitS oX ⟨c4fs, c4mounts⟩ =
      Except.map (fun s => ⟨s.fs, c4mounts⟩) (OverlayFS.commitS oX ⟨c4fs, []⟩) :=
  c4_commit_ignores_mount_state c4fs c4mounts [] oX ⟨true, ["mnt"]⟩ rfl

/-- C5 scenario: upper holds a whiteout for g but lower has no g. -/
def c5fs : FsTree := mkRoot [("g", FsTree.charDev 0o600 0)] []

/-- C5 counterexample: a WhiteoutFile record whose lower target is
missing is not applied silently: lower/g does not exist, is_dir is
false, so commit calls remove_file, which fails with NotFound and
aborts the whole commit. -/
theorem c5_counterexample_missing_target_errors :
    OverlayFS.diff oX c5fs = Except.ok [Diff.WhiteoutFile ⟨false, ["g"]⟩] ∧
    FsTree.lookup c5fs ["i", "layers", "local", "g"] = none ∧
    OverlayFS.commit oX c5fs = Except.error Err.notFound := ⟨rfl, rfl, rfl⟩

/-- C5 amended: applying WhiteoutFile(R) removes lower/R recursively
when it is a directory and as a single file otherwise; but when lower/R
does not exist, commit aborts with the NotFound error of remove_file
instead of tolerating the missing target, and the remaining records are
never reached. -/
theorem c5_whiteout_semantics (o : OverlayFS) (t : FsTree) (R : RPath) (rest : List Diff) :
    (isDirB t (o.lower.joinP R) = true →
      commitGo o t (Diff.WhiteoutFile R :: rest) =
        match remove_dir_all t (o.lower.joinP R) with
        | .error e => .error e
        | .ok t2 => commitGo o t2 rest) ∧
    (isDirB t (o.lower.joinP R) = false →
      commitGo o t (Diff.WhiteoutFile R :: rest) =
        match remove_file t (o.lower.joinP R) with
        | .error e => .error e
        | .ok t2 => commitGo o t2 rest) ∧
    (FsTree.lookup t (o.lower.joinP R).comps = none →
      commitGo o t (Diff.WhiteoutFile R :: rest) = Except.error Err.notFound) := by
  refine ⟨?_, ?_, ?_⟩
  · intro h
    cases hrm : remove_dir_all t (o.lower.joinP R) with
    | error e => simp [commitGo, applyDiff, h, hrm]
    | ok t2 => simp [commitGo, applyDiff, h, hrm]
  · intro h
    cases hrm : remove_file t (o.lower.joinP R) with
    | error e => simp [commitGo, applyDiff, h, hrm]
    | ok t2 => simp [commitGo, applyDiff, h, hrm]
  · intro h
    have hdir : isDirB t (o.lower.joinP R) = false := by simp [isDirB, h]
    have hrf : remove_file t (o.lower.joinP R) = .error .notFound := by
      simp [remove_file, h]
    simp [commitGo, applyDiff, hdir, hrf]

/-- C5 witness: the abort case instantiated at the concrete
missing-target scenario. -/
theorem c5_whiteout_witness :
    commitGo oX c5fs [Diff.WhiteoutFile ⟨false, ["g"]⟩] = Except.error Err.notFound :=
  (c5_whiteout_semantics oX c5fs ⟨false, ["g"]⟩ []).2.2 rfl

/-- C9 scenario: upper holds a whiteout device w (rdev 0) and an
ordinary character device cd (rdev 5). -/
def c9fs : FsTree :=
  mkRoot [("w", FsTree.charDev 0o600 0), ("cd", FsTree.charDev 0o600 5)] []

/-- The record the diff loop emits for a non-symlink non-directory
entry: WhiteoutFile for a character device with device id 0, File for
everything else. -/
def whiteoutOrFile (meta : FsTree) (rel : RPath) : Diff :=
  match meta with
  | FsTree.charDev _ 0 => Diff.WhiteoutFile rel
  | _ => Diff.File rel

/-- C9: a walked upper entry that is neither a symlink nor a directory
is classified as WhiteoutFile(R) exactly when it is a character device
with device id 0, and as File(R) otherwise (in particular a character
device with non-zero device id gives File), and that record appears in
the diff output. -/
theorem c9_whiteout_iff_chardev_zero
    (root : FsTree) (o : OverlayFS) (p : RPath) (meta : FsTree) (rel : RPath)
    (mods : List Diff)
    (hmem : Except.ok p ∈ (walkItems root o.upper).drop 1)
    (hlook : FsTree.lookup root p.comps = some meta)
    (hnotlink : ∀ tg, meta ≠ FsTree.symlink tg)
    (hnotdir : ∀ m x cs, meta ≠ FsTree.dir m x cs)
    (hstrip : RPath.stripPre p o.upper = Except.ok rel)
    (hdiff : OverlayFS.diff o root = Except.ok mods) :
    classifyEntry root o p = Except.ok (some (whiteoutOrFile meta rel)) ∧
    whiteoutOrFile meta rel ∈ mods := by
  have hclass : classifyEntry root o p = Except.ok (some (whiteoutOrFile meta rel)) := by
    cases meta with
    | symlink tg => exact absurd rfl (hnotlink tg)
    | dir m x cs => exact absurd rfl (hnotdir m x cs)
    | file m d => simp [classifyEntry, hstrip, hlook, whiteoutOrFile]
    | charDev m r =>
      cases r with
      | zero => simp [classifyEntry, hstrip, hlook, whiteoutOrFile]
      | succ k => simp [classifyEntry, hstrip, hlook, whiteoutOrFile]
  refine ⟨hclass, ?_⟩
  have hmods := diffGo_ok_eq root o _ mods hdiff
  rw [hmods]
  exact List.mem_filterMap.mpr ⟨Except.ok p, hmem, by simp [classifyOptE, hclass]⟩

/-- C9 witness: instantiation at the concrete whiteout device w of the
two-device scenario, whose diff emits WhiteoutFile(w) and File(cd). -/
theorem c9_whiteout_witness :
    classifyEntry c9fs oX (oX.upper.child "w") =
      Except.ok (some (whiteoutOrFile (FsTree.charDev 0o600 0) ⟨false, ["w"]⟩)) ∧
    whiteoutOrFile (FsTree.charDev 0o600 0) ⟨false, ["w"]⟩ ∈
      [Diff.WhiteoutFile ⟨false, ["w"]⟩, Diff.File ⟨false, ["cd"]⟩] :=
  c9_whiteout_iff_chardev_zero c9fs oX (oX.upper.child "w")
    (FsTree.charDev 0o600 0) ⟨false, ["w"]⟩
    [Diff.WhiteoutFile ⟨false, ["w"]⟩, Diff.File ⟨false, ["cd"]⟩]
    (List.mem_cons_self _ _)
    rfl
    (fun _tg h => FsTree.noConfusion h)
    (fun _m _x _cs h => FsTree.noConfusion h)
    rfl
    rfl

/-- C10 scenario: the instance exists but its layers/diff (upper)
directory is missing from disk. -/
def c10fs : FsTree :=
  FsTree.dir 0o755 [] [
    ("i", FsTree.dir 0o755 [] [
      ("layers", FsTree.dir 0o755 [] [
        ("local", FsTree.dir 0o755 [] [("keep", FsTree.file 0o644 [9])])])]),
    ("d", FsTree.dir 0o755 [] [])]

/-- C10 counterexample: with the upper directory missing, diff does not
return an error: walkdir yields a single error item for the missing
root, but the pass skips the first item unconditionally, so the error
is swallowed and diff returns the empty record list; commit then
succeeds without touching anything. -/
theorem c10_counterexample_missing_upper_ok :
    FsTree.lookup c10fs oX.upper.comps = none ∧
    walkItems c10fs oX.upper = [Except.error Err.notFound] ∧
    OverlayFS.diff oX c10fs = Except.ok [] ∧
    OverlayFS.commit oX c10fs = Except.ok c10fs := ⟨rfl, rfl, rfl, rfl⟩

/-- C10 amended: a missing upper directory behaves exactly like an
existing empty one: in both cases the diff returns the empty record
list (for a missing upper because the skip of the first walk item
consumes the error entry) and commit succeeds, returning the
filesystem unchanged. -/
theorem c10_missing_upper_like_empty (t : FsTree) (o : OverlayFS) :
    (FsTree.lookup t o.upper.comps = none →
      OverlayFS.diff o t = Except.ok [] ∧ OverlayFS.commit o t = Except.ok t) ∧
    (∀ m x, FsTree.lookup t o.upper.comps = some (FsTree.dir m x []) →
      OverlayFS.diff o t = Except.ok [] ∧ OverlayFS.commit o t = Except.ok t) := by
  constructor
  · intro h
    have hd : OverlayFS.diff o t = Except.ok [] := by
      simp [OverlayFS.diff, walkItems, h, diffGo]
    exact ⟨hd, by simp [OverlayFS.commit, hd, commitGo]⟩
  · intro m x h
    have hd : OverlayFS.diff o t = Except.ok [] := by
      simp [OverlayFS.diff, walkItems, h, walkEntries, walkChildren, diffGo]
    exact ⟨hd, by simp [OverlayFS.commit, hd, commitGo]⟩

/-- C10 witness: the missing-upper case instantiated at the concrete
tree without layers/diff. -/
theorem c10_missing_upper_witness :
    OverlayFS.diff oX c10fs = Except.ok [] ∧
    OverlayFS.commit oX c10fs = Except.ok c10fs :=
  (c10_missing_upper_like_empty c10fs oX).1 rfl

/-- C8 scenario: the upper layer holds a stale file, the lower layer a
file to be kept. -/
def c8fs : FsTree :=
  mkRoot [("junk", FsTree.file 0o644 [1, 2])] [("keep", FsTree.file 0o644 [9])]

/-- C8: a successful rollback leaves fresh empty directories at the
upper and work paths while the nodes at the lower and base paths are
exactly what they were before, provided the four layer paths do not
lexically contain one another (as holds for the layers/local,
layers/diff, layers/diff.tmp and dist layout built by from_inst_dir). -/
theorem c8_rollback_resets_upper_work_keeps_lower_base
    (t t2 : FsTree) (o : OverlayFS)
    (hul1 : ¬ (o.upper.comps <+: o.lower.comps))
    (hul2 : ¬ (o.lower.comps <+: o.upper.comps))
    (hub1 : ¬ (o.upper.comps <+: o.base.comps))
    (hub2 : ¬ (o.base.comps <+: o.upper.comps))
    (hwl1 : ¬ (o.work.comps <+: o.lower.comps))
    (hwl2 : ¬ (o.lower.comps <+: o.work.comps))
    (hwb1 : ¬ (o.work.comps <+: o.base.comps))
    (hwb2 : ¬ (o.base.comps <+: o.work.comps))
    (huw1 : ¬ (o.upper.comps <+: o.work.comps))
    (huw2 : ¬ (o.work.comps <+: o.upper.comps))
    (h : OverlayFS.rollback o t = Except.ok t2) :
    FsTree.lookup t2 o.upper.comps = some (FsTree.dir 0o755 [] []) ∧
    FsTree.lookup t2 o.work.comps = some (FsTree.dir 0o755 [] []) ∧
    FsTree.lookup t2 o.lower.comps = FsTree.lookup t o.lower.comps ∧
    FsTree.lookup t2 o.base.comps = FsTree.lookup t o.base.comps := by
  unfold OverlayFS.rollback at h
  split at h
  · exact absurd h (by simp)
  · rename_i ta h1
    split at h
    · exact absurd h (by simp)
    · rename_i tb h2
      split at h
      · exact absurd h (by simp)
      · rename_i tc h3
        have s1 := remove_dir_all_ok_set t o.upper ta h1
        have s2 := remove_dir_all_ok_set ta o.work tb h2
        have s3 := create_dir_ok_set tb o.upper tc h3
        have s4 := create_dir_ok_set tc o.work t2 h
        refine ⟨?_, ?_, ?_, ?_⟩
        · rw [setNode_lookup_frame o.work.comps tc _ t2 o.upper.comps s4 huw2 huw1]
          exact setNode_lookup_self o.upper.comps tb _ tc s3
        · exact setNode_lookup_self o.work.comps tc _ t2 s4
        · rw [setNode_lookup_frame o.work.comps tc _ t2 o.lower.comps s4 hwl1 hwl2]
          rw [setNode_lookup_frame o.upper.comps tb _ tc o.lower.comps s3 hul1 hul2]
          rw [setNode_lookup_frame o.work.comps ta _ tb o.lower.comps s2 hwl1 hwl2]
          rw [setNode_lookup_frame o.upper.comps t _ ta o.lower.comps s1 hul1 hul2]
        · rw [setNode_lookup_frame o.work.comps tc _ t2 o.base.comps s4 hwb1 hwb2]
          rw [setNode_lookup_frame o.upper.comps tb _ tc o.base.comps s3 hub1 hub2]
          rw [setNode_lookup_frame o.work.comps ta _ tb o.base.comps s2 hwb1 hwb2]
          rw [setNode_lookup_frame o.upper.comps t _ ta o.base.comps s1 hub1 hub2]

/-- The tree after rolling back the C8 scenario: upper and work are
fresh empty directories, everything else untouched. -/
def c8after : FsTree :=
  FsTree.dir 0o755 [] [
    ("i", FsTree.dir 0o755 [] [
      ("layers", FsTree.dir 0o755 [] [
        ("local", FsTree.dir 0o755 [] [("keep", FsTree.file 0o644 [9])]),
        ("diff", FsTree.dir 0o755 [] []),
        ("diff.tmp", FsTree.dir 0o755 [] [])])]),
    ("d", FsTree.dir 0o755 [] [])]

/-- C8 witness: the rollback contract instantiated at the concrete
scenario (the rollback result is computed and equals c8after). -/
theorem c8_rollback_witness :
    FsTree.lookup c8after oX.upper.comps = some (FsTree.dir 0o755 [] []) ∧
    FsTree.lookup c8after oX.work.comps = some (FsTree.dir 0o755 [] []) ∧
    FsTree.lookup c8after oX.lower.comps = FsTree.lookup c8fs oX.lower.comps ∧
    FsTree.lookup c8after oX.base.comps = FsTree.lookup c8fs oX.base.comps :=
  c8_rollback_resets_upper_work_keeps_lower_base c8fs c8after oX
    (by decide) (by decide) (by decide) (by decide) (by decide)
    (by decide) (by decide) (by decide) (by decide) (by decide) rfl
